import Mathlib

/-!
Verification of the XML reference oracle (`scripts/xml_reference.py`).

The script turns one XML document into a canonical event list.  We embed it
shallowly:

* strings are `List Char` (Python `str` is a sequence of code points);
* the per-character escaping loop `escape_for_debug` becomes a pure function;
* the handful of fixed regular expressions the script uses (`re.match` /
  `re.search` / `re.sub` on literal patterns) become hand-rolled total
  matchers with the same backtracking semantics on those fixed patterns
  (Python's `\s` and `\w` are modelled on the code points that can actually
  occur in the documents considered: ASCII plus the Latin-1 whitespace
  characters; the rarer Unicode whitespace code points are not modelled);
* the SAX-style `MoonBitTarget` class becomes a state machine over an
  explicit state record, driven by a list of callbacks;
* the underlying lxml/libxml2 parser is an external black box: it is
  represented by an oracle value, `none` for `XMLSyntaxError` and
  `some callbacks` for the callback sequence it delivers.

Events are kept structured (the Python code renders each event to its debug
string at emission time; the rendering is injective on the payloads that can
occur, so the structured list carries the same information, with attribute
values and text already escaped exactly where the script escapes them).
-/

abbrev Str := List Char

/-! ### String escaping (`escape_for_debug`, lines 14-37) -/

/-- One lowercase hexadecimal digit, as Python's `%x` formatting produces. -/
def hexDigit (n : Nat) : Char :=
  if n < 10 then Char.ofNat ('0'.toNat + n) else Char.ofNat ('a'.toNat + (n - 10))

/-- Python `f'\\u{{{code:02x}}}'` for `code < 0x100`: backslash, `u`, brace,
two lowercase hex digits, closing brace. -/
def uEsc (code : Nat) : Str :=
  ['\\', 'u', '{', hexDigit (code / 16), hexDigit (code % 16), '}']

/-- The body of the `for c in s` loop of `escape_for_debug`: what gets
appended to the result for one character. -/
def escChar (c : Char) : Str :=
  if c = '\\' then ['\\', '\\']
  else if c = '"' then ['\\', '"']
  else if c = '\n' then ['\\', 'n']
  else if c = '\t' then ['\\', 't']
  else if c = '\r' then ['\\', 'r']
  else if c.toNat < 0x20 then uEsc c.toNat
  else if c.toNat = 0x7f then uEsc 0x7f
  else if 0x80 ≤ c.toNat ∧ c.toNat ≤ 0x9f then uEsc c.toNat
  else [c]

/-- `escape_for_debug`: the concatenation of the per-character pieces
(Python builds a list of fragments and joins it). -/
def escape_for_debug (s : Str) : Str :=
  s.flatMap escChar

/-! ### Fixed regular expressions, modelled as total matchers -/

/-- Python's `\s` on the code points modelled here (ASCII whitespace,
the C1 separators, NEL and NBSP). -/
def isPySpace (c : Char) : Bool :=
  c == ' ' || c == '\t' || c == '\n' || c == '\r' || c == '\x0b' || c == '\x0c' ||
  c == '\x1c' || c == '\x1d' || c == '\x1e' || c == '\x1f' || c == '\x85' || c == '\xa0'

/-- If `p` is a literal prefix of `s`, the remainder of `s` after it. -/
def stripChars : Str → Str → Option Str
  | [], s => some s
  | _ :: _, [] => none
  | p :: ps, c :: cs => if c = p then stripChars ps cs else none

/-- Tail of the self-closing pattern: does `\s*/>` match a prefix of `s`?
(`\s*` is free to stop at any point, so this is an existential over the run
of whitespace, exactly what backtracking explores.) -/
def wsSlashGt : Str → Bool
  | [] => false
  | c :: r =>
    (c = '/' && (match r with | '>' :: _ => true | _ => false)) ||
    (isPySpace c && wsSlashGt r)

/-- Does `[^>]*\s*/>` match a prefix of `s` (any split point)? -/
def noGtThenWsSlashGt : Str → Bool
  | [] => false
  | c :: r => wsSlashGt (c :: r) || (c ≠ '>' && noGtThenWsSlashGt r)

/-- Does `(?:\s[^>]*)?\s*/>` match a prefix of `s`? -/
def selfCloseTail (s : Str) : Bool :=
  wsSlashGt s ||
    (match s with
     | c :: r => isPySpace c && noGtThenWsSlashGt r
     | [] => false)

/-- Does `<{tag}(?:\s[^>]*)?\s*/>` match at the head of `s`?
(`re.escape` makes the tag a literal in the Python pattern.) -/
def selfCloseAt (tag : Str) (s : Str) : Bool :=
  match s with
  | '<' :: r =>
    (match stripChars tag r with
     | some r2 => selfCloseTail r2
     | none => false)
  | _ => false

/-- `re.search` of the self-closing pattern: a match at some position. -/
def hasSelfClose (tag : Str) : Str → Bool
  | [] => false
  | c :: r => selfCloseAt tag (c :: r) || hasSelfClose tag r

/-- `MoonBitTarget._is_self_closing_in_source` (lines 96-100). -/
def is_self_closing_in_source (tag : Str) (src : Str) : Bool :=
  hasSelfClose tag src

/-- `re.match(r'<\?xml\s+([^?]*)\?>', xml_content)` (line 137): on success,
the captured group (the declaration's body) and the match's end offset.
After the literal `<?xml` and the greedy whitespace run, `[^?]*` runs to the
first `?`, which must be followed by `>`; backtracking over the whitespace
cannot move that first `?`, so the match is this deterministic scan. -/
def declMatch (s : Str) : Option (Str × Nat) :=
  match stripChars ['<', '?', 'x', 'm', 'l'] s with
  | none => none
  | some r =>
    let ws := r.takeWhile isPySpace
    if ws = [] then none
    else
      let r2 := r.dropWhile isPySpace
      let content := r2.takeWhile (fun c => c ≠ '?')
      match r2.drop content.length with
      | '?' :: '>' :: _ => some (content, 5 + ws.length + content.length + 2)
      | _ => none

/-- A match of `{key}\s*=\s*["\']([^"\']+)["\']` at the head of `s`: the
captured value.  The whitespace runs and the quoted run are deterministic
(backtracking cannot help, as argued for `declMatch`). -/
def matchKeyAt (key : Str) (s : Str) : Option Str :=
  match stripChars key s with
  | none => none
  | some r =>
    match r.dropWhile isPySpace with
    | '=' :: r2 =>
      match r2.dropWhile isPySpace with
      | q :: r4 =>
        if q = '"' ∨ q = '\'' then
          let v := r4.takeWhile (fun c => c ≠ '"' ∧ c ≠ '\'')
          match r4.drop v.length with
          | [] => none
          | _ :: _ => if v = [] then none else some v
        else none
      | [] => none
    | _ => none

/-- `re.search` for the key/value pattern: leftmost match wins
(used for `version`, `encoding`, `standalone` on lines 141-148). -/
def searchKey (key : Str) : Str → Option Str
  | [] => none
  | c :: r =>
    match matchKeyAt key (c :: r) with
    | some v => some v
    | none => searchKey key r

def verKey : Str := ['v', 'e', 'r', 's', 'i', 'o', 'n']

def encKey : Str := ['e', 'n', 'c', 'o', 'd', 'i', 'n', 'g']

def stdKey : Str := ['s', 't', 'a', 'n', 'd', 'a', 'l', 'o', 'n', 'e']

/-- First character class of the DOCTYPE name: `[a-zA-Z_:]`
(also the class of `re.search(r'<[a-zA-Z_:]', ...)` on line 164). -/
def nameStart (c : Char) : Bool :=
  ('a' ≤ c && c ≤ 'z') || ('A' ≤ c && c ≤ 'Z') || c == '_' || c == ':'

/-- Continuation class `[\w:.-]` of the DOCTYPE name (`\w` on its ASCII
code points). -/
def nameCont (c : Char) : Bool :=
  nameStart c || ('0' ≤ c && c ≤ '9') || c == '.' || c == '-'

/-- `\s*>`: consumed length, if it matches a prefix (deterministic: `>` is
not whitespace). -/
def wsGtLen : Str → Option Nat
  | [] => none
  | c :: r =>
    if c = '>' then some 1
    else if isPySpace c then (wsGtLen r).map (· + 1) else none

/-- After an opening `[`: length of `[^\]]*\]` (to the first `]`). -/
def brContentLen (s : Str) : Option Nat :=
  let inner := s.takeWhile (fun c => c ≠ ']')
  match s.drop inner.length with
  | ']' :: _ => some (inner.length + 1)
  | _ => none

/-- `\s*\[[^\]]*\]`: consumed length, if it matches a prefix. -/
def wsBrLen : Str → Option Nat
  | [] => none
  | c :: r =>
    if c = '[' then (brContentLen r).map (· + 1)
    else if isPySpace c then (wsBrLen r).map (· + 1) else none

/-- `(?:\s*\[[^\]]*\])?\s*>`: the optional bracket group is tried first
(regex `?` is greedy), falling back to `\s*>` alone. -/
def bcLen (s : Str) : Option Nat :=
  match wsBrLen s with
  | some n =>
    (match wsGtLen (s.drop n) with
     | some m => some (n + m)
     | none => wsGtLen s)
  | none => wsGtLen s

/-- `[^>\[]*` followed by `bcLen`, longest consumption first (greedy `*`
with backtracking). -/
def aTailLen : Str → Option Nat
  | [] => bcLen []
  | c :: r =>
    match (if c ≠ '>' ∧ c ≠ '[' then (aTailLen r).map (· + 1) else none) with
    | some n => some n
    | none => bcLen (c :: r)

/-- `(?:\s+[^>\[]*)?(?:\s*\[[^\]]*\])?\s*>`: the first optional group is
tried first; its `\s+` contributes one whitespace character and the rest is
absorbed by `[^>\[]*` (whitespace is neither `>` nor `[`). -/
def contAfterName (s : Str) : Option Nat :=
  match s with
  | [] => none
  | c :: r =>
    match (if isPySpace c = true then (aTailLen r).map (· + 1) else none) with
    | some n => some n
    | none => bcLen (c :: r)

/-- A match of the DOCTYPE pattern (line 157)
`<!DOCTYPE\s+([a-zA-Z_:][\w:.-]*)(?:\s+[^>\[]*)?(?:\s*\[[^\]]*\])?\s*>`
at the head of `s`: total length and the captured name.  The whitespace run
and the name run are deterministic: no continuation can start with a name
character, so shrinking the greedy name run never helps. -/
def doctypeMatchAt (s : Str) : Option (Nat × Str) :=
  match stripChars ['<', '!', 'D', 'O', 'C', 'T', 'Y', 'P', 'E'] s with
  | none => none
  | some r =>
    let ws := r.takeWhile isPySpace
    if ws = [] then none
    else
      match r.dropWhile isPySpace with
      | [] => none
      | c :: r3 =>
        if nameStart c then
          let nm := r3.takeWhile nameCont
          match contAfterName (r3.drop nm.length) with
          | some k => some (9 + ws.length + 1 + nm.length + k, c :: nm)
          | none => none
        else none

/-- `re.search` of the DOCTYPE pattern: leftmost match, returning start
offset, end offset and the captured root name. -/
def doctypeSearchAux : Nat → Str → Option (Nat × Nat × Str)
  | _, [] => none
  | i, c :: r =>
    match doctypeMatchAt (c :: r) with
    | some (len, nm) => some (i, i + len, nm)
    | none => doctypeSearchAux (i + 1) r

def doctypeSearch (s : Str) : Option (Nat × Nat × Str) :=
  doctypeSearchAux 0 s

/-- `re.search(r'<[a-zA-Z_:]', xml_content)` (line 164): offset of the
leftmost `<` followed by a name-start character. -/
def firstElemAux : Nat → Str → Option Nat
  | _, [] => none
  | i, c :: r =>
    if c == '<' && (match r with | d :: _ => nameStart d | [] => false) then some i
    else firstElemAux (i + 1) r

def firstElem (s : Str) : Option Nat :=
  firstElemAux 0 s

/-- Suffix after the first occurrence of `-->`. -/
def afterCommentClose : Str → Option Str
  | [] => none
  | c :: r =>
    if c == '-' && (match r with | '-' :: '>' :: _ => true | _ => false) then some (r.drop 2)
    else afterCommentClose r

/-- `re.sub(r'<!--.*?-->', '', s, flags=DOTALL)` (line 172): delete each
leftmost-shortest comment match, scanning left to right.  The fuel only
bounds the recursion; `s.length` suffices because every step consumes at
least one character. -/
def rmCommentsFuel : Nat → Str → Str
  | 0, s => s
  | _ + 1, [] => []
  | fuel + 1, c :: r =>
    if c == '<' && (match r with | '!' :: '-' :: '-' :: _ => true | _ => false) then
      match afterCommentClose (r.drop 3) with
      | some rest => rmCommentsFuel fuel rest
      | none => c :: rmCommentsFuel fuel r
    else c :: rmCommentsFuel fuel r

def rmComments (s : Str) : Str :=
  rmCommentsFuel s.length s

/-- Suffix after the first occurrence of `?>`. -/
def afterPiClose : Str → Option Str
  | [] => none
  | c :: r =>
    if c == '?' && (match r with | '>' :: _ => true | _ => false) then some (r.drop 1)
    else afterPiClose r

/-- `re.sub(r'<\?.*?\?>', '', s, flags=DOTALL)` (line 173). -/
def rmPIsFuel : Nat → Str → Str
  | 0, s => s
  | _ + 1, [] => []
  | fuel + 1, c :: r =>
    if c == '<' && (match r with | '?' :: _ => true | _ => false) then
      match afterPiClose (r.drop 1) with
      | some rest => rmPIsFuel fuel rest
      | none => c :: rmPIsFuel fuel r
    else c :: rmPIsFuel fuel r

def rmPIs (s : Str) : Str :=
  rmPIsFuel s.length s

/-! ### Events and the `MoonBitTarget` state machine (lines 40-129) -/

/-- The canonical event vocabulary.  The Python code renders each event to
its MoonBit debug string at the moment it is appended; the payloads here are
exactly the strings interpolated into those renderings, so attribute values,
text, comment bodies and PI data already carry `escape_for_debug`. -/
inductive Event where
  | Decl (version : Str) (encoding : Option Str) (standalone : Option Str)
  | DocType (root : Str)
  | Start (name : Str) (attributes : List (Str × Str))
  | Empty (name : Str) (attributes : List (Str × Str))
  | End (name : Str)
  | Text (content : Str)
  | Comment (content : Str)
  | PI (target : Str) (data : Str)
  | Eof
deriving DecidableEq

/-- The state of `MoonBitTarget`.  Python keeps `pending_start` oldest
first; here the newest entry is at the head, so flushing reverses. -/
structure Target where
  events : List Event
  xml_source : Str
  pending_start : List (Str × List (Str × Str))
deriving DecidableEq

/-- `MoonBitTarget._flush_pending` (lines 49-53). -/
def Target.flush_pending (st : Target) : Target :=
  { st with
    events := st.events ++ st.pending_start.reverse.map (fun p => Event.Start p.1 p.2),
    pending_start := [] }

/-- `tag.split('}', 1)[1]` guarded by `'}' in tag` (lines 60-61, 66-67,
78-79): drop everything up to and including the first `}`. -/
def stripNs (tag : Str) : Str :=
  if '}' ∈ tag then (tag.dropWhile (fun c => c ≠ '}')).drop 1 else tag

/-- `MoonBitTarget.start` (lines 55-74): flush, strip namespaces, escape
attribute values, and buffer the element instead of emitting it. -/
def Target.start (st : Target) (tag : Str) (attrib : List (Str × Str)) : Target :=
  let st := st.flush_pending
  let tag := stripNs tag
  let attrs := attrib.map (fun kv => (stripNs kv.1, escape_for_debug kv.2))
  { st with pending_start := (tag, attrs) :: st.pending_start }

/-- `MoonBitTarget.end` (lines 76-94). -/
def Target.end_ (st : Target) (tag : Str) : Target :=
  let tag := stripNs tag
  match st.pending_start with
  | (pending_tag, attrs) :: rest =>
    if pending_tag = tag then
      if is_self_closing_in_source tag st.xml_source then
        { st with events := st.events ++ [Event.Empty tag attrs], pending_start := rest }
      else
        { st with events := st.events ++ [Event.Start tag attrs, Event.End tag],
                  pending_start := rest }
    else
      let st := st.flush_pending
      { st with events := st.events ++ [Event.End tag] }
  | [] =>
    let st := st.flush_pending
    { st with events := st.events ++ [Event.End tag] }

/-- `MoonBitTarget.data` (lines 102-108): flush, then emit one `Text` for
this fragment if it is non-empty.  There is no accumulation buffer. -/
def Target.data (st : Target) (d : Str) : Target :=
  let st := st.flush_pending
  if d = [] then st
  else { st with events := st.events ++ [Event.Text (escape_for_debug d)] }

/-- `MoonBitTarget.comment` (lines 110-114). -/
def Target.comment (st : Target) (text : Str) : Target :=
  let st := st.flush_pending
  { st with events := st.events ++ [Event.Comment (escape_for_debug text)] }

/-- `MoonBitTarget.pi` (lines 116-121); `text = text or ""`. -/
def Target.pi (st : Target) (target : Str) (text : Option Str) : Target :=
  let st := st.flush_pending
  let text := match text with | some t => t | none => []
  { st with events := st.events ++ [Event.PI target (escape_for_debug text)] }

/-- `MoonBitTarget.close` (lines 123-126). -/
def Target.close (st : Target) : Target :=
  st.flush_pending

/-- One raw parser callback, as lxml delivers them to the target. -/
inductive Callback where
  | start (tag : Str) (attrib : List (Str × Str))
  | end_ (tag : Str)
  | data (d : Str)
  | comment (text : Str)
  | pi (target : Str) (text : Option Str)
deriving DecidableEq

def Target.step (st : Target) : Callback → Target
  | .start tag attrib => st.start tag attrib
  | .end_ tag => st.end_ tag
  | .data d => st.data d
  | .comment t => st.comment t
  | .pi t d => st.pi t d

def Target.run (st : Target) : List Callback → Target
  | [] => st
  | c :: cs => (st.step c).run cs

/-- The events collected by a fresh `MoonBitTarget(xml)` after the parser
has delivered `cs` and the document was closed. -/
def runTarget (xml : Str) (cs : List Callback) : List Event :=
  (((Target.mk [] xml []).run cs).close).events

/-! ### `parse_xml` (lines 131-193) -/

/-- The `Decl` block of `parse_xml` (lines 136-154): reconstructed from the
declaration's body, with `version = "1.0"` as the fallback when the version
pseudo-attribute is not found (`version = "1.0"` is assigned first and only
overwritten when the search succeeds); `encoding`/`standalone` are `none`
when their searches fail (the captured groups are never empty, so Python's
truthiness test coincides with the `None` test). -/
def declEvents (xml : Str) : List Event :=
  match declMatch xml with
  | none => []
  | some (content, _) =>
    let version := match searchKey verKey content with
      | some v => v
      | none => ['1', '.', '0']
    [Event.Decl version (searchKey encKey content) (searchKey stdKey content)]

/-- The `DocType` block of `parse_xml` (lines 156-161): the DOCTYPE pattern
is searched in the whole document text. -/
def doctypeEvents (xml : Str) : List Event :=
  match doctypeSearch xml with
  | none => []
  | some (_, _, nm) => [Event.DocType nm]

/-- The between-prolog-and-root text block of `parse_xml` (lines 163-179):
document text between the end of the recognized prolog constructs and the
first element-looking `<`, with comments and processing instructions
deleted, emitted as one `Text` event when non-empty. -/
def betweenEvents (xml : Str) : List Event :=
  match firstElem xml with
  | none => []
  | some feStart =>
    let prologEnd := match declMatch xml with | some (_, e) => e | none => 0
    let prologEnd := match doctypeSearch xml with
      | some (ds, de, _) => if prologEnd ≤ ds then de else prologEnd
      | none => prologEnd
    let between := rmPIs (rmComments ((xml.take feStart).drop prologEnd))
    if between = [] then [] else [Event.Text (escape_for_debug between)]

/-- Everything `parse_xml` appends to `events` before the lxml pass. -/
def prologEvents (xml : Str) : List Event :=
  declEvents xml ++ (doctypeEvents xml ++ betweenEvents xml)

/-- `parse_xml`: the prolog events, the target's events, and the final
`Eof`; `none` models `etree.XMLSyntaxError` (the whole `try` body is
discarded and only an error line is produced, so no event list survives).
The `oracle` argument stands for the external lxml parser: `none` when it
rejects the document, `some cs` for the callbacks it delivers. -/
def parse_xml (xml : Str) (oracle : Option (List Callback)) : Option (List Event) :=
  match oracle with
  | none => none
  | some cs => some (prologEvents xml ++ (runTarget xml cs ++ [Event.Eof]))

/-! ### Spec-side definitions

These follow the specification's words, to be compared with the
source-derived definitions above. -/

/-- One row of the spec's §4.3 escaping table: a character class and the
output for a character of that class. -/
structure EscRow where
  cls : Char → Prop
  dec : DecidablePred cls
  out : Char → Str

/-- Apply a table of rows in order, first match wins; characters matched by
no row are emitted unchanged. -/
def tableApply : List EscRow → Char → Str
  | [], c => [c]
  | row :: rows, c => @ite _ (row.cls c) (row.dec c) (row.out c) (tableApply rows c)

/-- The spec's §4.3 table, row for row and in order. -/
def escapeTable : List EscRow :=
  [⟨fun c => c = '\\', fun _ => inferInstance, fun _ => ['\\', '\\']⟩,
   ⟨fun c => c = '"', fun _ => inferInstance, fun _ => ['\\', '"']⟩,
   ⟨fun c => c = '\n', fun _ => inferInstance, fun _ => ['\\', 'n']⟩,
   ⟨fun c => c = '\t', fun _ => inferInstance, fun _ => ['\\', 't']⟩,
   ⟨fun c => c = '\r', fun _ => inferInstance, fun _ => ['\\', 'r']⟩,
   ⟨fun c => c.toNat < 0x20, fun _ => inferInstance, fun c => uEsc c.toNat⟩,
   ⟨fun c => c.toNat = 0x7f, fun _ => inferInstance, fun _ => uEsc 0x7f⟩,
   ⟨fun c => 0x80 ≤ c.toNat ∧ c.toNat ≤ 0x9f, fun _ => inferInstance, fun c => uEsc c.toNat⟩]

/-- Character-by-character escaping by the spec's table. -/
def escapeSpec (s : Str) : Str :=
  s.flatMap (tableApply escapeTable)

/-- Value of a lowercase hexadecimal digit. -/
def hexVal (c : Char) : Nat :=
  if 'a'.toNat ≤ c.toNat then c.toNat - 'a'.toNat + 10 else c.toNat - '0'.toNat

/-- Modelled from the spec: the inverse of the §4.3 escape mapping
(`\\`, `\"`, `\n`, `\t`, `\r`, `\u{XX}` decoded, everything else passed
through; input not in the image of the escaping is passed through
unchanged, one character at a time). -/
def unescape : Str → Str
  | [] => []
  | c :: r =>
    if c = '\\' then
      match r with
      | '\\' :: r2 => '\\' :: unescape r2
      | '"' :: r2 => '"' :: unescape r2
      | 'n' :: r2 => '\n' :: unescape r2
      | 't' :: r2 => '\t' :: unescape r2
      | 'r' :: r2 => '\r' :: unescape r2
      | 'u' :: '{' :: h1 :: h2 :: '}' :: r2 =>
        Char.ofNat (16 * hexVal h1 + hexVal h2) :: unescape r2
      | r2 => '\\' :: unescape r2
    else c :: unescape r

/-- Replace element names and attribute keys of a callback by their local
(namespace-stripped) parts, leaving all other payloads untouched. -/
def localizeCb : Callback → Callback
  | .start t a => .start (stripNs t) (a.map (fun kv => (stripNs kv.1, kv.2)))
  | .end_ t => .end_ (stripNs t)
  | c => c

/-- A name whose local part is `}`-free (true of every name lxml delivers:
`local` or `{uri}local` with a `}`-free uri, since `}` is not an XML name
character). -/
def goodName (n : Str) : Bool :=
  decide ('}' ∉ stripNs n)

/-- All element names and attribute keys of the callback are good. -/
def goodCb : Callback → Bool
  | .start t a => goodName t && a.all (fun kv => goodName kv.1)
  | .end_ t => goodName t
  | _ => true

/-- Is the event a `Decl`? -/
def isDeclEv : Event → Bool
  | .Decl _ _ _ => true
  | _ => false

/-- Is the event a `DocType`? -/
def isDocTypeEv : Event → Bool
  | .DocType _ => true
  | _ => false

/-- Events the `MoonBitTarget` callbacks can emit (everything except
`Decl`, `DocType` and `Eof`). -/
def plainEvent : Event → Bool
  | .Decl _ _ _ => false
  | .DocType _ => false
  | .Eof => false
  | _ => true

/-! ### Helper lemmas -/

theorem escChar_eq_tableApply (c : Char) : escChar c = tableApply escapeTable c := rfl

theorem hexVal_hexDigit : ∀ k, k < 16 → hexVal (hexDigit k) = k := by decide

/-- Undoing one escaped character recovers it, whatever follows. -/
theorem unescape_escChar (c : Char) (rest : Str) :
    unescape (escChar c ++ rest) = c :: unescape rest := by
  by_cases h1 : c = '\\'
  · subst h1; rfl
  · by_cases h2 : c = '"'
    · subst h2; rfl
    · by_cases h3 : c = '\n'
      · subst h3; rfl
      · by_cases h4 : c = '\t'
        · subst h4; rfl
        · by_cases h5 : c = '\r'
          · subst h5; rfl
          · by_cases h6 : c.toNat < 0x20
            · have hesc : escChar c = uEsc c.toNat := by
                unfold escChar
                rw [if_neg h1, if_neg h2, if_neg h3, if_neg h4, if_neg h5, if_pos h6]
              rw [hesc]
              show Char.ofNat (16 * hexVal (hexDigit (c.toNat / 16)) +
                hexVal (hexDigit (c.toNat % 16))) :: unescape rest = c :: unescape rest
              rw [hexVal_hexDigit _ (by omega), hexVal_hexDigit _ (by omega),
                show 16 * (c.toNat / 16) + c.toNat % 16 = c.toNat from by omega,
                Char.ofNat_toNat]
            · by_cases h7 : c.toNat = 0x7f
              · have hesc : escChar c = uEsc 0x7f := by
                  unfold escChar
                  rw [if_neg h1, if_neg h2, if_neg h3, if_neg h4, if_neg h5, if_neg h6,
                    if_pos h7]
                rw [hesc]
                show Char.ofNat (16 * hexVal (hexDigit (0x7f / 16)) +
                  hexVal (hexDigit (0x7f % 16))) :: unescape rest = c :: unescape rest
                rw [show Char.ofNat (16 * hexVal (hexDigit (0x7f / 16)) +
                  hexVal (hexDigit (0x7f % 16))) = Char.ofNat 0x7f from by decide,
                  ← h7, Char.ofNat_toNat]
              · by_cases h8 : 0x80 ≤ c.toNat ∧ c.toNat ≤ 0x9f
                · have hesc : escChar c = uEsc c.toNat := by
                    unfold escChar
                    rw [if_neg h1, if_neg h2, if_neg h3, if_neg h4, if_neg h5, if_neg h6,
                      if_neg h7, if_pos h8]
                  rw [hesc]
                  show Char.ofNat (16 * hexVal (hexDigit (c.toNat / 16)) +
                    hexVal (hexDigit (c.toNat % 16))) :: unescape rest = c :: unescape rest
                  rw [hexVal_hexDigit _ (by omega), hexVal_hexDigit _ (by omega),
                    show 16 * (c.toNat / 16) + c.toNat % 16 = c.toNat from by omega,
                    Char.ofNat_toNat]
                · have hesc : escChar c = [c] := by
                    unfold escChar
                    rw [if_neg h1, if_neg h2, if_neg h3, if_neg h4, if_neg h5, if_neg h6,
                      if_neg h7, if_neg h8]
                  rw [hesc]
                  show unescape (c :: rest) = c :: unescape rest
                  conv_lhs => unfold unescape
                  rw [if_neg h1]

theorem flush_pending_events (st : Target) :
    st.flush_pending.events =
      st.events ++ st.pending_start.reverse.map (fun p => Event.Start p.1 p.2) := rfl

theorem flush_pending_of_empty (st : Target) (h : st.pending_start = []) :
    st.flush_pending = st := by
  cases st
  simp_all [Target.flush_pending]

/-- Every event a flush adds is a `Start`, so flushing preserves the
"only plain events" invariant. -/
theorem flush_events_ok (st : Target) (h : ∀ e ∈ st.events, plainEvent e = true) :
    ∀ e ∈ st.flush_pending.events, plainEvent e = true := by
  intro e he
  rw [flush_pending_events] at he
  rcases List.mem_append.mp he with h1 | h2
  · exact h e h1
  · obtain ⟨p, _, rfl⟩ := List.mem_map.mp h2
    rfl

theorem append_events_ok {l1 l2 : List Event} (h1 : ∀ e ∈ l1, plainEvent e = true)
    (h2 : ∀ e ∈ l2, plainEvent e = true) : ∀ e ∈ l1 ++ l2, plainEvent e = true := by
  intro e he
  rcases List.mem_append.mp he with h | h
  exacts [h1 e h, h2 e h]

/-- Every callback handler appends only plain events. -/
theorem step_events_ok (st : Target) (c : Callback)
    (h : ∀ e ∈ st.events, plainEvent e = true) :
    ∀ e ∈ (st.step c).events, plainEvent e = true := by
  cases c with
  | start tag attrib =>
    exact flush_events_ok st h
  | end_ tag =>
    show ∀ e ∈ (st.end_ tag).events, plainEvent e = true
    unfold Target.end_
    rcases hp : st.pending_start with _ | ⟨⟨ptag, attrs⟩, rest⟩
    · dsimp only
      exact append_events_ok (flush_events_ok st h)
        (by intro e he; rcases List.mem_singleton.mp he with rfl; rfl)
    · dsimp only
      split
      · split
        · exact append_events_ok h
            (by intro e he; rcases List.mem_singleton.mp he with rfl; rfl)
        · refine append_events_ok h ?_
          intro e he
          rcases List.mem_cons.mp he with rfl | he2
          · rfl
          · rcases List.mem_singleton.mp he2 with rfl; rfl
      · exact append_events_ok (flush_events_ok st h)
          (by intro e he; rcases List.mem_singleton.mp he with rfl; rfl)
  | data d =>
    show ∀ e ∈ (st.data d).events, plainEvent e = true
    unfold Target.data
    split
    · exact flush_events_ok st h
    · exact append_events_ok (flush_events_ok st h)
        (by intro e he; rcases List.mem_singleton.mp he with rfl; rfl)
  | comment t =>
    exact append_events_ok (flush_events_ok st h)
      (by intro e he; rcases List.mem_singleton.mp he with rfl; rfl)
  | pi t d =>
    exact append_events_ok (flush_events_ok st h)
      (by intro e he; rcases List.mem_singleton.mp he with rfl; rfl)

theorem run_events_ok : ∀ (cs : List Callback) (st : Target),
    (∀ e ∈ st.events, plainEvent e = true) →
    ∀ e ∈ (st.run cs).events, plainEvent e = true
  | [], _, h => h
  | c :: cs, st, h => run_events_ok cs _ (step_events_ok st c h)

/-- Everything the `MoonBitTarget` pass emits is a plain event: never a
`Decl`, a `DocType` or an `Eof`. -/
theorem runTarget_events_ok (xml : Str) (cs : List Callback) :
    ∀ e ∈ runTarget xml cs, plainEvent e = true := by
  refine flush_events_ok _ (run_events_ok cs _ ?_)
  intro e he
  simp at he

theorem plain_ne_eof (e : Event) (h : plainEvent e = true) : e ≠ Event.Eof := by
  cases e <;> simp_all [plainEvent]

theorem plain_not_decl_doctype (e : Event) (h : plainEvent e = true) :
    isDeclEv e = false ∧ isDocTypeEv e = false := by
  cases e <;> simp_all [plainEvent, isDeclEv, isDocTypeEv]

theorem declEvents_shape (xml : Str) :
    declEvents xml = [] ∨ ∃ v en sa, declEvents xml = [Event.Decl v en sa] := by
  rcases h : declMatch xml with _ | ⟨content, e⟩
  · left; simp [declEvents, h]
  · right
    exact ⟨(match searchKey verKey content with | some v => v | none => ['1', '.', '0']),
      searchKey encKey content, searchKey stdKey content, by simp [declEvents, h]⟩

theorem doctypeEvents_shape (xml : Str) :
    doctypeEvents xml = [] ∨ ∃ n, doctypeEvents xml = [Event.DocType n] := by
  rcases h : doctypeSearch xml with _ | ⟨i, j, nm⟩
  · left; simp [doctypeEvents, h]
  · right; exact ⟨nm, by simp [doctypeEvents, h]⟩

theorem betweenEvents_shape (xml : Str) :
    betweenEvents xml = [] ∨ ∃ s, betweenEvents xml = [Event.Text s] := by
  rcases h : firstElem xml with _ | fe
  · left; simp [betweenEvents, h]
  · unfold betweenEvents
    rw [h]
    dsimp only
    split
    · left; rfl
    · right; exact ⟨_, rfl⟩

theorem prologEvents_no_eof (xml : Str) : Event.Eof ∉ prologEvents xml := by
  intro hm
  rcases declEvents_shape xml with h1 | ⟨v, en, sa, h1⟩ <;>
  rcases doctypeEvents_shape xml with h2 | ⟨n, h2⟩ <;>
  rcases betweenEvents_shape xml with h3 | ⟨s, h3⟩ <;>
  simp [prologEvents, h1, h2, h3] at hm

theorem data_pending_empty (st : Target) (d : Str) : (st.data d).pending_start = [] := by
  unfold Target.data
  dsimp only
  split <;> rfl

/-- A run of consecutive `data` callbacks from a state with nothing pending
appends one `Text` event per non-empty fragment, in order. -/
theorem run_data_events : ∀ (ds : List Str) (st : Target), st.pending_start = [] →
    (st.run (ds.map Callback.data)).events =
      st.events ++ (ds.filter (fun d => !d.isEmpty)).map
        (fun d => Event.Text (escape_for_debug d)) := by
  intro ds
  induction ds with
  | nil => intro st h; simp [Target.run]
  | cons d ds ih =>
    intro st h
    have hf : st.flush_pending = st := flush_pending_of_empty st h
    simp only [List.map_cons, Target.run, Target.step]
    rw [ih _ (data_pending_empty st d)]
    by_cases hd : d = []
    · subst hd
      simp [Target.data, hf, List.filter]
    · have hne : (!d.isEmpty) = true := by
        cases d
        · exact absurd rfl hd
        · rfl
      unfold Target.data
      dsimp only
      rw [if_neg hd, hf]
      simp [List.filter_cons, hne]

theorem stripNs_no_brace (n : Str) (h : '}' ∉ n) : stripNs n = n := by
  simp [stripNs, h]

theorem stripNs_idem (n : Str) (h : goodName n = true) :
    stripNs (stripNs n) = stripNs n :=
  stripNs_no_brace _ (of_decide_eq_true h)

theorem dropWhile_until_brace : ∀ (pre l : Str), '}' ∉ pre →
    (pre ++ '}' :: l).dropWhile (fun c => c ≠ '}') = '}' :: l := by
  intro pre
  induction pre with
  | nil => intro l _; simp [List.dropWhile]
  | cons a pre ih =>
    intro l h
    have ha : a ≠ '}' := fun e => h (e ▸ List.mem_cons_self a pre)
    have h2 : '}' ∉ pre := fun hm => h (List.mem_cons_of_mem a hm)
    simp only [List.cons_append, List.dropWhile]
    rw [decide_eq_true ha]
    exact ih l h2

/-- Stripping a Clark-notation name `{uri}local` yields the local part,
provided the uri itself is brace-free. -/
theorem stripNs_clark (u l : Str) (h : '}' ∉ u) :
    stripNs ('{' :: (u ++ '}' :: l)) = l := by
  have hc : '}' ∈ '{' :: (u ++ '}' :: l) := by simp
  rw [stripNs, if_pos hc]
  have hlt : ('{' : Char) ≠ '}' := by decide
  simp only [List.dropWhile]
  rw [decide_eq_true hlt]
  rw [dropWhile_until_brace u l h]
  rfl

/-- Pre-localizing a callback's names does not change what the machine does
with it, for callbacks whose names have brace-free local parts. -/
theorem step_localize (st : Target) (c : Callback) (h : goodCb c = true) :
    st.step (localizeCb c) = st.step c := by
  cases c with
  | start t a =>
    have h1 : goodName t = true := by
      have := h
      simp [goodCb, Bool.and_eq_true] at this
      exact this.1
    have h2 : ∀ kv ∈ a, goodName kv.1 = true := by
      have := h
      simp [goodCb, Bool.and_eq_true, List.all_eq_true] at this
      intro kv hkv
      exact this.2 kv.1 kv.2 hkv
    simp only [localizeCb, Target.step, Target.start]
    rw [stripNs_idem t h1, List.map_map]
    have : (fun kv => (stripNs kv.1, escape_for_debug kv.2)) ∘
        (fun kv : Str × Str => (stripNs kv.1, kv.2)) =
        fun kv : Str × Str => (stripNs (stripNs kv.1), escape_for_debug kv.2) := rfl
    rw [this]
    have hm : a.map (fun kv : Str × Str => (stripNs (stripNs kv.1), escape_for_debug kv.2)) =
        a.map (fun kv : Str × Str => (stripNs kv.1, escape_for_debug kv.2)) := by
      apply List.map_congr_left
      intro kv hkv
      rw [stripNs_idem kv.1 (h2 kv hkv)]
    rw [hm]
  | end_ t =>
    have h1 : goodName t = true := by simpa [goodCb] using h
    simp only [localizeCb, Target.step]
    unfold Target.end_
    rw [stripNs_idem t h1]
  | data d => rfl
  | comment t => rfl
  | pi t d => rfl

theorem run_localize : ∀ (cs : List Callback) (st : Target),
    (∀ c ∈ cs, goodCb c = true) →
    st.run (cs.map localizeCb) = st.run cs := by
  intro cs
  induction cs with
  | nil => intro st _; rfl
  | cons c cs ih =>
    intro st h
    simp only [List.map_cons, Target.run]
    rw [step_localize st c (h c (List.mem_cons_self c cs))]
    exact ih _ (fun c' hc' => h c' (List.mem_cons_of_mem c hc'))

theorem declEvents_filter_doctype (xml : Str) :
    (declEvents xml).filter isDocTypeEv = [] := by
  rcases declEvents_shape xml with h | ⟨v, en, sa, h⟩ <;> simp [h, isDocTypeEv]

theorem betweenEvents_filter_doctype (xml : Str) :
    (betweenEvents xml).filter isDocTypeEv = [] := by
  rcases betweenEvents_shape xml with h | ⟨s, h⟩ <;> simp [h, isDocTypeEv]

theorem doctypeEvents_filter_doctype (xml : Str) :
    (doctypeEvents xml).filter isDocTypeEv = doctypeEvents xml := by
  rcases doctypeEvents_shape xml with h | ⟨n, h⟩ <;> simp [h, isDocTypeEv]

theorem runTarget_filter_doctype (xml : Str) (cs : List Callback) :
    (runTarget xml cs).filter isDocTypeEv = [] := by
  rw [List.filter_eq_nil_iff]
  intro e he
  have := (plain_not_decl_doctype e (runTarget_events_ok xml cs e he)).2
  simp [this]

/-! ### Claims -/

/-- C1, counterexample: with the same callbacks (one `start`, one matching
`end` while the start is still pending), the document `<a></a>` yields
`Start` followed by `End`, while `<a/>` yields one `Empty`; the two
spellings do not produce identical output, so self-closing spelling is
observable. -/
theorem claim1_counterexample :
    parse_xml "<a></a>".data (some [Callback.start ['a'] [], Callback.end_ ['a']]) =
      some [Event.Start ['a'] [], Event.End ['a'], Event.Eof] ∧
    parse_xml "<a/>".data (some [Callback.start ['a'] [], Callback.end_ ['a']]) =
      some [Event.Empty ['a'] [], Event.Eof] ∧
    parse_xml "<a></a>".data (some [Callback.start ['a'] [], Callback.end_ ['a']]) ≠
      parse_xml "<a/>".data (some [Callback.start ['a'] [], Callback.end_ ['a']]) := by
  refine ⟨by decide, by decide, by decide⟩

/-- C1, amended: when the end callback finds the element's own start still
pending (same stripped name on top), the code pops it and emits one `Empty`
event only if a self-closing spelling of that tag name occurs anywhere in
the document source text; otherwise it emits `Start` followed by `End`.
So the source spelling is observable. -/
theorem claim1_end_matched (st : Target) (tag ptag : Str) (attrs : List (Str × Str))
    (rest : List (Str × List (Str × Str)))
    (hp : st.pending_start = (ptag, attrs) :: rest) (ht : stripNs tag = ptag) :
    (st.end_ tag).events = st.events ++
      (if is_self_closing_in_source ptag st.xml_source then [Event.Empty ptag attrs]
       else [Event.Start ptag attrs, Event.End ptag]) ∧
    (st.end_ tag).pending_start = rest := by
  unfold Target.end_
  rw [hp]
  dsimp only
  rw [ht, if_pos rfl]
  split <;> exact ⟨rfl, rfl⟩

/-- C1, witness for the amended theorem, at a state whose source is `<a/>`
and whose pending start is `a`. -/
theorem claim1_witness :
    ((Target.mk [] "<a/>".data [(['a'], [])]).end_ ['a']).events =
      (Target.mk [] "<a/>".data [(['a'], [])]).events ++
      (if is_self_closing_in_source ['a'] (Target.mk [] "<a/>".data [(['a'], [])]).xml_source
       then [Event.Empty ['a'] []]
       else [Event.Start ['a'] [], Event.End ['a']]) ∧
    ((Target.mk [] "<a/>".data [(['a'], [])]).end_ ['a']).pending_start = [] :=
  claim1_end_matched (Target.mk [] "<a/>".data [(['a'], [])]) ['a'] ['a'] [] [] rfl (by decide)

/-- C2, counterexample: two consecutive non-empty text callbacks with no
intervening markup produce two `Text` events, one per callback; no single
`Text` event carrying the concatenation appears. -/
theorem claim2_counterexample :
    runTarget "<r>xy</r>".data
      [Callback.start ['r'] [], Callback.data ['x'], Callback.data ['y'],
       Callback.end_ ['r']] =
      [Event.Start ['r'] [], Event.Text ['x'], Event.Text ['y'], Event.End ['r']] ∧
    Event.Text ['x', 'y'] ∉ runTarget "<r>xy</r>".data
      [Callback.start ['r'] [], Callback.data ['x'], Callback.data ['y'],
       Callback.end_ ['r']] := by
  refine ⟨by decide, by decide⟩

/-- C2, amended: there is no pending-text buffer; every non-empty text
callback immediately emits its own `Text` event with the escaped fragment,
so a run of consecutive text callbacks yields one `Text` event per
non-empty fragment, in order, never a coalesced one. -/
theorem claim2_text_per_callback (ds : List Str) (st : Target)
    (h : st.pending_start = []) :
    (st.run (ds.map Callback.data)).events =
      st.events ++ (ds.filter (fun d => !d.isEmpty)).map
        (fun d => Event.Text (escape_for_debug d)) :=
  run_data_events ds st h

/-- C2, witness for the amended theorem: fragments `x` and `y` from the
initial state. -/
theorem claim2_witness :
    ((Target.mk [] [] []).run ([['x'], ['y']].map Callback.data)).events =
      (Target.mk [] [] []).events ++ ([['x'], ['y']].filter (fun d => !d.isEmpty)).map
        (fun d => Event.Text (escape_for_debug d)) :=
  claim2_text_per_callback [['x'], ['y']] (Target.mk [] [] []) rfl

/-- C3, counterexample: for `<?xml encoding="UTF-8"?><r/>` the declaration
body is found, the version search fails, and the extractor neither fails
nor propagates anything: it emits `Decl` with the synthesized default
version `1.0`, which is not textually present in the source. -/
theorem claim3_counterexample :
    declMatch "<?xml encoding=\"UTF-8\"?><r/>".data =
      some ("encoding=\"UTF-8\"".data, 24) ∧
    searchKey verKey "encoding=\"UTF-8\"".data = none ∧
    prologEvents "<?xml encoding=\"UTF-8\"?><r/>".data =
      [Event.Decl ['1', '.', '0'] (some "UTF-8".data) none] := by
  refine ⟨by decide, by decide, by decide⟩

/-- C3, amended: the metadata extraction never fails; whenever the
declaration regex matches but the version search fails on the captured
body, the emitted `Decl` carries the synthesized default version `1.0`
(and the results of the encoding/standalone searches).  Any failure of the
whole operation can only come from the external parser. -/
theorem claim3_decl_default_version (xml content : Str) (e : Nat)
    (h1 : declMatch xml = some (content, e))
    (h2 : searchKey verKey content = none) :
    ∃ rest, prologEvents xml =
      Event.Decl ['1', '.', '0'] (searchKey encKey content)
        (searchKey stdKey content) :: rest := by
  refine ⟨doctypeEvents xml ++ betweenEvents xml, ?_⟩
  unfold prologEvents declEvents
  rw [h1]
  dsimp only
  rw [h2]
  exact rfl

/-- C3, witness for the amended theorem at `<?xml encoding="UTF-8"?><r/>`. -/
theorem claim3_witness :
    ∃ rest, prologEvents "<?xml encoding=\"UTF-8\"?><r/>".data =
      Event.Decl ['1', '.', '0'] (searchKey encKey "encoding=\"UTF-8\"".data)
        (searchKey stdKey "encoding=\"UTF-8\"".data) :: rest :=
  claim3_decl_default_version "<?xml encoding=\"UTF-8\"?><r/>".data
    "encoding=\"UTF-8\"".data 24 (by decide) (by decide)

/-- C4: the escaping function is exactly the character-by-character,
first-match-wins application of the spec's fixed table (and, being a
function, it is deterministic and total). -/
theorem claim4_escape_table : ∀ s : Str, escape_for_debug s = escapeSpec s := by
  intro s
  induction s with
  | nil => rfl
  | cons c s ih =>
    show escChar c ++ escape_for_debug s = tableApply escapeTable c ++ escapeSpec s
    rw [ih, escChar_eq_tableApply]

/-- C5: applying the inverse of the escape mapping to the escaped rendering
reproduces the original string exactly, for every string; in particular the
escaping is injective. -/
theorem claim5_escape_roundtrip : ∀ s : Str, unescape (escape_for_debug s) = s := by
  intro s
  induction s with
  | nil => rfl
  | cons c s ih =>
    show unescape (escChar c ++ escape_for_debug s) = c :: s
    rw [unescape_escChar, ih]

/-- C6: `parse_xml` fails exactly when the underlying parser rejects the
document (then no partial event list is returned), and on success the
event list ends in exactly one `Eof`, which occurs nowhere else. -/
theorem claim6_eof_terminates (xml : Str) (oracle : Option (List Callback)) :
    (parse_xml xml oracle = none ↔ oracle = none) ∧
    ∀ res, parse_xml xml oracle = some res →
      res.dropLast ++ [Event.Eof] = res ∧ Event.Eof ∉ res.dropLast := by
  constructor
  · cases oracle with
    | none => simp [parse_xml]
    | some cs => simp [parse_xml]
  · intro res hres
    cases oracle with
    | none => simp [parse_xml] at hres
    | some cs =>
      simp only [parse_xml, Option.some.injEq] at hres
      have hr : res = (prologEvents xml ++ runTarget xml cs) ++ [Event.Eof] := by
        rw [← hres, List.append_assoc]
      rw [hr, List.dropLast_concat]
      refine ⟨rfl, ?_⟩
      intro hm
      rcases List.mem_append.mp hm with h | h
      · exact prologEvents_no_eof xml h
      · exact plain_ne_eof _ (runTarget_events_ok xml cs _ h) rfl

/-- C6, witness, at the parse of `<a/>`. -/
theorem claim6_witness :
    ([Event.Empty ['a'] [], Event.Eof].dropLast ++ [Event.Eof] =
      [Event.Empty ['a'] [], Event.Eof]) ∧
    Event.Eof ∉ [Event.Empty ['a'] [], Event.Eof].dropLast :=
  (claim6_eof_terminates "<a/>".data
    (some [Callback.start ['a'] [], Callback.end_ ['a']])).2
    [Event.Empty ['a'] [], Event.Eof] (by decide)

/-- C7: every successful parse yields at most one `Decl` and at most one
`DocType`; the `Decl` (if any) comes first, the `DocType` (if any) second,
and no later event is a `Decl` or a `DocType`. -/
theorem claim7_prolog_order (xml : Str) (oracle : Option (List Callback))
    (res : List Event) (h : parse_xml xml oracle = some res) :
    ∃ d t rest, res = d ++ (t ++ rest) ∧
      (d = [] ∨ ∃ v en sa, d = [Event.Decl v en sa]) ∧
      (t = [] ∨ ∃ n, t = [Event.DocType n]) ∧
      ∀ e ∈ rest, isDeclEv e = false ∧ isDocTypeEv e = false := by
  cases oracle with
  | none => simp [parse_xml] at h
  | some cs =>
    simp only [parse_xml, Option.some.injEq] at h
    refine ⟨declEvents xml, doctypeEvents xml,
      betweenEvents xml ++ (runTarget xml cs ++ [Event.Eof]), ?_,
      declEvents_shape xml, doctypeEvents_shape xml, ?_⟩
    · rw [← h]
      simp [prologEvents, List.append_assoc]
    · intro e he
      rcases List.mem_append.mp he with h1 | h2
      · rcases betweenEvents_shape xml with hb | ⟨s, hb⟩
        · rw [hb] at h1; simp at h1
        · rw [hb] at h1
          rcases List.mem_singleton.mp h1 with rfl
          exact ⟨rfl, rfl⟩
      · rcases List.mem_append.mp h2 with h3 | h4
        · exact plain_not_decl_doctype e (runTarget_events_ok xml cs e h3)
        · rcases List.mem_singleton.mp h4 with rfl
          exact ⟨rfl, rfl⟩

/-- C7, witness, at the parse of `<a/>`. -/
theorem claim7_witness :
    ∃ d t rest, [Event.Empty ['a'] [], Event.Eof] = d ++ (t ++ rest) ∧
      (d = [] ∨ ∃ v en sa, d = [Event.Decl v en sa]) ∧
      (t = [] ∨ ∃ n, t = [Event.DocType n]) ∧
      ∀ e ∈ rest, isDeclEv e = false ∧ isDocTypeEv e = false :=
  claim7_prolog_order "<a/>".data (some [Callback.start ['a'] [], Callback.end_ ['a']])
    [Event.Empty ['a'] [], Event.Eof] (by decide)

/-- C8, counterexample: in `<r><!-- <!DOCTYPE foo > --></r>` the root
element starts at offset 0, so the document has no doctype declaration in
its prolog; the only DOCTYPE-looking text sits inside a comment.  The code
still emits `DocType("foo")`, because the DOCTYPE pattern is searched in
the whole document text. -/
theorem claim8_counterexample :
    parse_xml "<r><!-- <!DOCTYPE foo > --></r>".data
      (some [Callback.start ['r'] [], Callback.comment " <!DOCTYPE foo > ".data,
             Callback.end_ ['r']]) =
      some [Event.DocType "foo".data, Event.Start ['r'] [],
            Event.Comment " <!DOCTYPE foo > ".data, Event.End ['r'], Event.Eof] ∧
    firstElem "<r><!-- <!DOCTYPE foo > --></r>".data = some 0 := by
  refine ⟨by decide, by decide⟩

/-- C8, amended: a `DocType` event is emitted if and only if the DOCTYPE
pattern matches somewhere in the whole document text (including inside
comments or character data), and it carries exactly the leftmost match's
captured root name — only a name, never subset content or identifiers. -/
theorem claim8_doctype_from_search (xml : Str) (oracle : Option (List Callback))
    (res : List Event) (h : parse_xml xml oracle = some res) :
    res.filter isDocTypeEv =
      (match doctypeSearch xml with
       | some (_, _, n) => [Event.DocType n]
       | none => []) := by
  cases oracle with
  | none => simp [parse_xml] at h
  | some cs =>
    simp only [parse_xml, Option.some.injEq] at h
    rw [← h]
    simp only [prologEvents, List.filter_append]
    rw [declEvents_filter_doctype, doctypeEvents_filter_doctype,
      betweenEvents_filter_doctype, runTarget_filter_doctype]
    show [] ++ (doctypeEvents xml ++ []) ++ ([] ++ [Event.Eof].filter isDocTypeEv) = _
    simp only [List.nil_append, List.append_nil, List.filter, isDocTypeEv, doctypeEvents]
    rcases doctypeSearch xml with _ | ⟨a, b, n⟩ <;> rfl

/-- C8, witness for the amended theorem, at the comment document. -/
theorem claim8_witness :
    ([Event.DocType "foo".data, Event.Start ['r'] [],
      Event.Comment " <!DOCTYPE foo > ".data, Event.End ['r'],
      Event.Eof].filter isDocTypeEv) =
      (match doctypeSearch "<r><!-- <!DOCTYPE foo > --></r>".data with
       | some (_, _, n) => [Event.DocType n]
       | none => []) :=
  claim8_doctype_from_search "<r><!-- <!DOCTYPE foo > --></r>".data
    (some [Callback.start ['r'] [], Callback.comment " <!DOCTYPE foo > ".data,
           Callback.end_ ['r']])
    [Event.DocType "foo".data, Event.Start ['r'] [],
     Event.Comment " <!DOCTYPE foo > ".data, Event.End ['r'], Event.Eof] (by decide)

/-- C9: stripping a Clark-notation name `{uri}local` yields its local
part, and pre-localizing every element name and attribute key of the
callbacks leaves the emitted event stream unchanged — the events depend
only on the local parts, so namespace URIs never reach the event stream. -/
theorem claim9_local_names :
    (∀ u l : Str, '}' ∉ u → stripNs ('{' :: (u ++ '}' :: l)) = l) ∧
    ∀ (xml : Str) (cs : List Callback), (∀ c ∈ cs, goodCb c = true) →
      runTarget xml (cs.map localizeCb) = runTarget xml cs := by
  refine ⟨stripNs_clark, ?_⟩
  intro xml cs h
  unfold runTarget
  rw [run_localize cs _ h]

/-- C9, witness: a namespaced element with a namespaced attribute. -/
theorem claim9_witness :
    stripNs ('{' :: ("ns".data ++ '}' :: "a".data)) = "a".data ∧
    runTarget [] ([Callback.start "{u}b".data [("{u}k".data, "v".data)],
      Callback.end_ "{u}b".data].map localizeCb) =
      runTarget [] [Callback.start "{u}b".data [("{u}k".data, "v".data)],
        Callback.end_ "{u}b".data] :=
  ⟨claim9_local_names.1 "ns".data "a".data (by decide),
   claim9_local_names.2 [] _ (by decide)⟩

/-- C10: whether a content-less element becomes `Empty` or `Start`/`End`
depends on the whole document text, not on the element occurrence itself:
with the same callback prefix, `<r><a></a></r>` renders the empty `a` as
`Start`/`End`, while in `<r><a></a><a/></r>` (which also contains `<a/>`)
the occurrence spelled `<a></a>` is rendered as an `Empty` event. -/
theorem claim10_nonlocal_empty :
    runTarget "<r><a></a></r>".data
      [Callback.start ['r'] [], Callback.start ['a'] [], Callback.end_ ['a'],
       Callback.end_ ['r']] =
      [Event.Start ['r'] [], Event.Start ['a'] [], Event.End ['a'], Event.End ['r']] ∧
    runTarget "<r><a></a><a/></r>".data
      [Callback.start ['r'] [], Callback.start ['a'] [], Callback.end_ ['a'],
       Callback.start ['a'] [], Callback.end_ ['a'], Callback.end_ ['r']] =
      [Event.Start ['r'] [], Event.Empty ['a'] [], Event.Empty ['a'] [],
       Event.End ['r']] := by
  refine ⟨by decide, by decide⟩
